import Mathlib

/-!
Verification of the GenomeCheck core (`src/genome_analyzer.py` and the
tree-building section of `src/streamlit_app.py`).

Modelling conventions:
* FASTA residues are `List Char`; a parsed file is a `List (List Char)` of
  records (only the residue strings matter to the statistics).
* IEEE floating-point arithmetic is modelled exactly over `ℚ`.
* A numpy float cell is `Option ℚ`: `some q` is an ordinary float, `none` is
  `NaN` (the "unavailable" marker used by `all_vs_all_fastani`).
* Matrices are total functions `Nat → Nat → Option ℚ`; only the indices below
  the matrix size are meaningful.
* External effects (the fastANI process, the scikit-bio library) are injected
  as explicit arguments, so every function is pure and executable.
-/

/-- `record.seq.upper()` on the residues of one record. -/
def seqUpper (s : List Char) : List Char := s.map Char.toUpper

/-- `seq.count("G") + seq.count("C")` after upper-casing, as in
`compute_stats`. -/
def countGC (s : List Char) : Nat := (seqUpper s).count 'G' + (seqUpper s).count 'C'

/-- The `lengths` list accumulated by `compute_stats`: one entry per record,
in input order, each `len(record.seq.upper())`. -/
def contigLengths (records : List (List Char)) : List Nat :=
  records.map fun r => (seqUpper r).length

/-- The dictionary returned by `compute_stats` in `src/genome_analyzer.py`:
keys "Total length (bp)", "Num contigs", "N50", "L90", "GC%". -/
structure AssemblyStats where
  total_length : Nat
  num_contigs : Nat
  n50 : Nat
  l90 : Nat
  gc_percent : ℚ
deriving DecidableEq, Repr

/-- Insert an element into a descending-sorted list, keeping it descending. -/
def insertDesc (x : Nat) : List Nat → List Nat
  | [] => [x]
  | y :: ys => if y ≤ x then x :: y :: ys else y :: insertDesc x ys

/-- `lengths.sort(reverse=True)`: sort a list of contig lengths in descending
order (elements are naturals, so stability is irrelevant). -/
def sortDesc : List Nat → List Nat
  | [] => []
  | x :: xs => insertDesc x (sortDesc xs)

/-- Round-half-to-even on `ℚ`, the rounding rule of Python's `round`. -/
def roundHalfEven (q : ℚ) : ℤ :=
  let f := ⌊q⌋
  let r := q - (f : ℚ)
  if r < 1 / 2 then f
  else if 1 / 2 < r then f + 1
  else if f % 2 = 0 then f else f + 1

/-- Python's `round(q, 2)` (modelled exactly over `ℚ`). -/
def pyRound2 (q : ℚ) : ℚ := ((roundHalfEven (q * 100) : ℚ)) / 100

/-- The N50 loop of `compute_stats`: walk the sorted lengths accumulating
`cumulative`; return the first length at which `cumulative >= half_length`,
or 0 if the list is exhausted. -/
def n50Loop : List Nat → ℚ → ℚ → Nat
  | [], _, _ => 0
  | a :: rest, half, cum =>
    if half ≤ cum + (a : ℚ) then a else n50Loop rest half (cum + (a : ℚ))

/-- The L90 loop of `compute_stats`: walk the sorted lengths accumulating
`cumulative` and counting contigs; stop once `cumulative >= l90_target`. -/
def l90Loop : List Nat → ℚ → ℚ → Nat → Nat
  | [], _, _, acc => acc
  | a :: rest, target, cum, acc =>
    if target ≤ cum + (a : ℚ) then acc + 1
    else l90Loop rest target (cum + (a : ℚ)) (acc + 1)

/-- `compute_stats` from `src/genome_analyzer.py` (lines 12-66), on the parsed
records of one FASTA file. -/
def compute_stats (records : List (List Char)) : AssemblyStats :=
  let lengths := contigLengths records
  let gc_count := (records.map countGC).sum
  let total_bases := lengths.sum
  let num_contigs := records.length
  if lengths.isEmpty then
    { total_length := 0, num_contigs := 0, n50 := 0, l90 := 0, gc_percent := 0 }
  else
    let sorted := sortDesc lengths
    let gc_percent : ℚ := if 0 < total_bases then (gc_count : ℚ) / (total_bases : ℚ) * 100 else 0
    { total_length := total_bases
      num_contigs := num_contigs
      n50 := n50Loop sorted ((total_bases : ℚ) / 2) 0
      l90 := l90Loop sorted ((total_bases : ℚ) * (9 / 10)) 0 0
      gc_percent := pyRound2 gc_percent }

/-- Python's `str.split(sep)` for a one-character separator, on the
character list of a string (`"".split(c)` gives `[""]`). -/
def splitOnChar (c : Char) : List Char → List (List Char)
  | [] => [[]]
  | x :: xs =>
    let r := splitOnChar c xs
    if x = c then [] :: r
    else
      match r with
      | [] => [[x]]
      | h :: t => (x :: h) :: t

/-- `os.path.basename`: the part of a path after the final `/`. -/
def basename (s : String) : String :=
  String.mk ((splitOnChar '/' s.data).getLastD [])

/-- `filename.rsplit('.', 1)[0]`: drop the final `.`-separated extension,
returning the whole string when it contains no dot. -/
def stripExt (s : String) : String :=
  let parts := splitOnChar '.' s.data
  if parts.length ≤ 1 then s
  else String.mk (List.intercalate ['.'] parts.dropLast)

/-- The filter `filename.endswith((".fasta", ".fa", ".fna"))` used by
`process_directory`. -/
def fastaLike (s : String) : Bool :=
  List.isSuffixOf ".fasta".data s.data || List.isSuffixOf ".fa".data s.data ||
    List.isSuffixOf ".fna".data s.data

/-- The "File" column produced by `process_directory` (line 244 of
`src/genome_analyzer.py`) from a directory listing. -/
def process_directory_file_column (filenames : List String) : List String :=
  (filenames.filter fastaLike).map stripExt

/-- How a numpy cell records the outcome of one comparator call:
a score on success, `NaN` (`none`) on failure. -/
def cellOf : Except String ℚ → Option ℚ
  | .ok v => some v
  | .error _ => none

/-- Write `v` into the two cells `(i, j)` and `(j, i)` of a matrix. -/
def updatePair (M : Nat → Nat → Option ℚ) (i j : Nat) (v : Option ℚ) :
    Nat → Nat → Option ℚ :=
  fun a b => if (a = i ∧ b = j) ∨ (a = j ∧ b = i) then v else M a b

/-- The mutable state of the `all_vs_all_fastani` loop: the numpy matrix and
the `errors` dict (an association list keyed by the ordered pair `(i, j)`,
in insertion order). -/
structure BuildSt where
  mat : Nat → Nat → Option ℚ
  errs : List ((Nat × Nat) × String)

/-- One iteration of the `all_vs_all_fastani` loop for the pair `p = (i, j)`:
on success both `(i, j)` and `(j, i)` receive the score, on failure both
become `NaN` and the reason string is appended to `errors`. -/
def buildStep (compare : Nat → Nat → Except String ℚ) (st : BuildSt) (p : Nat × Nat) :
    BuildSt :=
  match compare p.1 p.2 with
  | .ok ani => ⟨updatePair st.mat p.1 p.2 (some ani), st.errs⟩
  | .error e => ⟨updatePair st.mat p.1 p.2 none, st.errs ++ [(p, e)]⟩

/-- `itertools.combinations(range(n), 2)`: all pairs `(i, j)` with
`i < j < n`, in lexicographic order. -/
def pairs (n : Nat) : List (Nat × Nat) :=
  (List.range n).flatMap fun i =>
    ((List.range n).filter (fun j => i < j)).map fun j => (i, j)

/-- `all_vs_all_fastani` from `src/genome_analyzer.py` (lines 314-340), with
the per-pair comparator call injected as `compare` (the source invokes
`run_fastani` there).  Returns the ANI matrix, `genome_names`
(`os.path.basename` of each input path) and the `errors` dict.  The matrix
starts as `np.zeros`, each unordered pair is attempted exactly once inside a
`try/except` (so one failure never stops the loop), and the diagonal is
filled with `100.0` at the end. -/
def all_vs_all_fastani (file_paths : List String)
    (compare : Nat → Nat → Except String ℚ) :
    (Nat → Nat → Option ℚ) × List String × List ((Nat × Nat) × String) :=
  let n := file_paths.length
  let genome_names := file_paths.map basename
  let st := (pairs n).foldl (buildStep compare) ⟨fun _ _ => some 0, []⟩
  (fun a b => if a = b ∧ a < n then some 100 else st.mat a b, genome_names, st.errs)

/-- One whitespace-separated field of the first line of a fastANI output
file, as seen by `float(parts[2])`: either a string that parses to the
rational `q`, or one that raises `ValueError`. -/
inductive FastField
  | num (q : ℚ) (raw : String)
  | nonNum (raw : String)

/-- The observable behaviour of the external world during one `run_fastani`
call: the fastANI binary may be missing from every search location, the
subprocess may time out or raise `FileNotFoundError`, or it runs and yields
a return code, stderr text, the existence of the output file and the
tab-split fields of its first line. -/
inductive FastANIWorld
  | noBinary
  | timeout (binPath : String)
  | procMissing (binPath : String)
  | ran (binPath : String) (returncode : Int) (stderr : String)
      (outputExists : Bool) (firstLine : List FastField)

/-- `' '.join(cmd)` for the fastANI command line. -/
def cmdJoin (binPath query ref outFile : String) (threads : Nat) : String :=
  binPath ++ " -q " ++ query ++ " -r " ++ ref ++ " -o " ++ outFile ++
    " -t " ++ toString threads

/-- `os.path.join` for the paths this program builds. -/
def os_path_join (a b : String) : String :=
  if a.endsWith "/" then a ++ b else a ++ "/" ++ b

/-- The per-pair output path `os.path.join(base_tmp, f"fastani_:i_:j.txt")`
built inside the `all_vs_all_fastani` loop. -/
def fastani_out_file (baseTmp : String) (i j : Nat) : String :=
  os_path_join baseTmp ("fastani_" ++ toString i ++ "_" ++ toString j ++ ".txt")

/-- `run_fastani` from `src/genome_analyzer.py` (lines 265-311): every
non-success path raises `RuntimeError` with the message built there, which
`all_vs_all_fastani` stringifies into the `errors` dict. -/
def run_fastani (query ref outFile : String) (threads timeoutSecs : Nat)
    (w : FastANIWorld) : Except String ℚ :=
  match w with
  | .noBinary =>
      .error ("fastANI binary not found: " ++
        "fastANI not found in any common locations. Install fastANI or ensure it's on PATH.")
  | .timeout _ =>
      .error ("fastANI timed out after " ++ toString timeoutSecs ++ " seconds for " ++
        query ++ " vs " ++ ref)
  | .procMissing _ =>
      .error "fastANI binary not found. Install fastANI or run in an environment that has fastANI available."
  | .ran binPath rc stderr outExists firstLine =>
      if rc ≠ 0 then
        .error ("fastANI failed (returncode=" ++ toString rc ++ "): " ++ stderr.trim ++
          "\ncmd: " ++ cmdJoin binPath query ref outFile threads)
      else if outExists = false then
        .error ("fastANI did not create expected output file: " ++ outFile)
      else
        match firstLine with
        | _ :: _ :: FastField.num q _ :: _ => .ok q
        | _ :: _ :: FastField.nonNum raw :: _ =>
            .error ("fastANI produced non-numeric ANI value: " ++ raw)
        | _ => .error ("fastANI output file malformed: " ++ outFile)

/-- `all_vs_all_fastani` with its real comparator: each pair `(i, j)` calls
`run_fastani(file_paths[i], file_paths[j], out_file, threads)` against the
world state `world i j` (default timeout 600 as in the source). -/
def all_vs_all_fastani_exec (file_paths : List String) (baseTmp : String)
    (threads : Nat) (world : Nat → Nat → FastANIWorld) :
    (Nat → Nat → Option ℚ) × List String × List ((Nat × Nat) × String) :=
  all_vs_all_fastani file_paths fun i j =>
    run_fastani (file_paths.getD i "") (file_paths.getD j "")
      (fastani_out_file baseTmp i j) threads 600 (world i j)

/-- `compute_distance_matrix` from `src/genome_analyzer.py` (lines 343-347):
the elementwise numpy expression `1 - ani_matrix / 100.0`, under which `NaN`
propagates to `NaN`. -/
def compute_distance_matrix (M : Nat → Nat → Option ℚ) : Nat → Nat → Option ℚ :=
  fun i j => (M i j).map fun s => 1 - s / 100

/-- The behaviour of the imported scikit-bio library during one
`neighbor_joining_tree` call: `DistanceMatrix(...)` followed by `nj(...)`,
`ascii_art()` and `str(...)`, which either returns the `(ascii_art, newick)`
pair or raises with some message. -/
structure NJLib where
  nj : (Nat → Nat → Option ℚ) → List String → Except String (String × String)

/-- What a call of `neighbor_joining_tree` does: return a `(ascii, newick)`
pair, or let an exception propagate to the caller. -/
inductive NJOutcome
  | result (ascii newick : String)
  | raised (msg : String)
deriving DecidableEq, Repr

/-- `neighbor_joining_tree` from `src/genome_analyzer.py` (lines 350-362):
`skbio = none` models `ImportError` on `from skbio import ...`, the only
exception the function catches; any exception raised by the library itself
propagates to the caller. -/
def neighbor_joining_tree (skbio : Option NJLib) (dm : Nat → Nat → Option ℚ)
    (names : List String) : NJOutcome :=
  match skbio with
  | none => .result "scikit-bio not installed" ""
  | some lib =>
      match lib.nj dm names with
      | .ok (a, s) => .result a s
      | .error m => .raised m

/-- `np.nan_to_num(ani_matrix, nan=0.0)` (line 357 of
`src/streamlit_app.py`): every `NaN` cell becomes `0.0`. -/
def np_nan_to_num (M : Nat → Nat → Option ℚ) : Nat → Nat → Option ℚ :=
  fun i j => some ((M i j).getD 0)

/-- The distance matrix the Streamlit app passes to the tree build (line 434):
`1 - ani_matrix / 100.0` computed from the `nan_to_num`-coerced ANI matrix. -/
def streamlit_distance (ani : Nat → Nat → Option ℚ) : Nat → Nat → Option ℚ :=
  compute_distance_matrix (np_nan_to_num ani)

/-- What the tree section of the Streamlit app does after a fastANI run:
either the `st.info` message "need at least 3 genomes" with no tree build
attempted, or the outcome of `neighbor_joining_tree`. -/
inductive TreeSection
  | tooFew
  | built (outcome : NJOutcome)
deriving DecidableEq, Repr

/-- Lines 355-435 of `src/streamlit_app.py` restricted to the dataflow into
the tree build: coerce `NaN` to `0.0`, guard `len(genome_names) < 3`, then
call `neighbor_joining_tree` on the coerced distance matrix. -/
def streamlit_tree_section (skbio : Option NJLib) (ani : Nat → Nat → Option ℚ)
    (names : List String) : TreeSection :=
  if names.length < 3 then .tooFew
  else .built (neighbor_joining_tree skbio (streamlit_distance ani) names)

/-- A comparator in which every invocation fails, for exercising the
all-failures case. -/
def allFailCompare : Nat → Nat → Except String ℚ := fun _ _ => .error "boom"

/-- A comparator that succeeds everywhere with score 90. -/
def const90Compare : Nat → Nat → Except String ℚ := fun _ _ => .ok 90

/-- A library model that succeeds on any input, returning a fixed tree. -/
def okLib : NJLib := ⟨fun _ _ => .ok ("ascii-tree", "(a,b,c);")⟩

/-- A library model with scikit-bio's documented behaviour on small inputs:
`skbio.tree.nj` raises `ValueError` for a distance matrix smaller than 3x3,
and succeeds otherwise. -/
def skbioLikeLib : NJLib :=
  ⟨fun _ names =>
    if names.length < 3 then
      .error "Distance matrix must be at least 3x3 to generate a neighbor joining tree."
    else .ok ("ascii-tree", "(a,(b,c));")⟩

/-- The five-contig demo assembly of the spec: contig lengths
`[100, 100, 100, 100, 100]`. -/
def demoRecords : List (List Char) := List.replicate 5 (List.replicate 100 'A')

/-- A 3x3 ANI matrix in which exactly the pair `(0, 1)` failed (its two
cells are `NaN`) and every other comparison returned 90. -/
def aniDemo : Nat → Nat → Option ℚ :=
  fun i j =>
    if i = j then some 100
    else if (i = 0 ∧ j = 1) ∨ (i = 1 ∧ j = 0) then none
    else some 90

/-- A fully-defined 2x2 distance matrix. -/
def dmTwo : Nat → Nat → Option ℚ := fun i j => if i = j then some 0 else some 1

/-! ## Enumeration of unordered pairs -/

lemma mem_pairs {n i j : Nat} : (i, j) ∈ pairs n ↔ i < j ∧ j < n := by
  simp only [pairs, List.mem_flatMap, List.mem_map, List.mem_filter, List.mem_range,
    decide_eq_true_eq, Prod.mk.injEq]
  constructor
  · rintro ⟨a, _, b, ⟨hbn, hab⟩, rfl, rfl⟩
    exact ⟨hab, hbn⟩
  · rintro ⟨hij, hjn⟩
    exact ⟨i, lt_trans hij hjn, j, ⟨hjn, hij⟩, rfl, rfl⟩

lemma mem_pairs' {n : Nat} {p : Nat × Nat} : p ∈ pairs n ↔ p.1 < p.2 ∧ p.2 < n := by
  cases p; exact mem_pairs

lemma sorted_pairs {n : Nat} {p : Nat × Nat} (h : p ∈ pairs n) : p.1 < p.2 :=
  (mem_pairs'.mp h).1

lemma nodup_pairs (n : Nat) : (pairs n).Nodup := by
  unfold pairs
  rw [List.nodup_flatMap]
  constructor
  · intro i _
    exact (((List.nodup_range n).filter _).map (fun a b h => congrArg Prod.snd h))
  · have hr : List.Pairwise (· ≠ ·) (List.range n) := List.nodup_range n
    refine hr.imp ?_
    intro a b hab
    intro x hxa hxb
    obtain ⟨ja, _, rfl⟩ := List.mem_map.mp hxa
    obtain ⟨jb, _, hjb⟩ := List.mem_map.mp hxb
    exact hab (congrArg Prod.fst hjb.symm)

lemma filter_lt_range_length (n i : Nat) :
    ((List.range n).filter (fun j => decide (i < j))).length = n - (i + 1) := by
  induction n with
  | zero => simp
  | succ m ih =>
    rw [List.range_succ, List.filter_append, List.length_append, ih]
    by_cases h : i < m
    · simp [h]; omega
    · simp [h]; omega

lemma sum_range_sub_double (n : Nat) :
    2 * ((List.range n).map (fun i => n - (i + 1))).sum = n * (n - 1) := by
  induction n with
  | zero => simp
  | succ m ih =>
    have step : ((List.range (m + 1)).map (fun i => m + 1 - (i + 1))).sum
        = ((List.range m).map (fun i => m - (i + 1))).sum + m := by
      rw [List.range_succ, List.map_append, List.sum_append]
      simp only [List.map_cons, List.map_nil, List.sum_cons, List.sum_nil]
      have hcong : (List.range m).map (fun i => m + 1 - (i + 1))
          = (List.range m).map (fun i => (m - (i + 1)) + 1) := by
        refine List.map_congr_left ?_
        intro i hi
        rw [List.mem_range] at hi
        omega
      rw [hcong, List.sum_map_add]
      simp [List.length_range]
    rw [step, Nat.mul_add, ih]
    cases m with
    | zero => simp
    | succ k =>
      simp only [Nat.succ_sub_one]
      ring

lemma length_pairs_double (n : Nat) : 2 * (pairs n).length = n * (n - 1) := by
  have hlen : (pairs n).length = ((List.range n).map (fun i => n - (i + 1))).sum := by
    unfold pairs
    rw [List.length_flatMap]
    congr 1
    refine List.map_congr_left ?_
    intro i _
    simp [Function.comp, filter_lt_range_length]
  rw [hlen]
  exact sum_range_sub_double n

lemma length_pairs (n : Nat) : (pairs n).length = n * (n - 1) / 2 := by
  have := length_pairs_double n
  omega

/-! ## The all-vs-all fold -/

lemma updatePair_same₁ (M : Nat → Nat → Option ℚ) (i j : Nat) (v : Option ℚ) :
    updatePair M i j v i j = v := by
  simp [updatePair]

lemma updatePair_same₂ (M : Nat → Nat → Option ℚ) (i j : Nat) (v : Option ℚ) :
    updatePair M i j v j i = v := by
  simp [updatePair]

lemma updatePair_other (M : Nat → Nat → Option ℚ) (i j : Nat) (v : Option ℚ)
    (a b : Nat) (h : ¬((a = i ∧ b = j) ∨ (a = j ∧ b = i))) :
    updatePair M i j v a b = M a b := by
  simp only [updatePair]
  rw [if_neg h]

lemma foldl_errs (c : Nat → Nat → Except String ℚ) (L : List (Nat × Nat)) :
    ∀ st : BuildSt,
      (L.foldl (buildStep c) st).errs =
        st.errs ++ L.filterMap (fun p =>
          match c p.1 p.2 with
          | .ok _ => none
          | .error e => some (p, e)) := by
  induction L with
  | nil => intro st; simp
  | cons p L ih =>
    intro st
    rw [List.foldl_cons, ih]
    simp only [List.filterMap_cons]
    cases h : c p.1 p.2 with
    | ok v => simp [buildStep, h]
    | error e => simp [buildStep, h]

lemma foldl_mat_untouched (c : Nat → Nat → Except String ℚ) (L : List (Nat × Nat)) :
    ∀ (st : BuildSt) (a b : Nat),
      (∀ p ∈ L, ¬((a = p.1 ∧ b = p.2) ∨ (a = p.2 ∧ b = p.1))) →
      (L.foldl (buildStep c) st).mat a b = st.mat a b := by
  induction L with
  | nil => intro st a b _; rfl
  | cons p L ih =>
    intro st a b h
    rw [List.foldl_cons, ih _ a b (fun q hq => h q (List.mem_cons_of_mem p hq))]
    cases hc : c p.1 p.2 with
    | ok v => simp only [buildStep, hc]; exact updatePair_other _ _ _ _ a b (h p (List.mem_cons_self p L))
    | error e => simp only [buildStep, hc]; exact updatePair_other _ _ _ _ a b (h p (List.mem_cons_self p L))

lemma foldl_mat_set (c : Nat → Nat → Except String ℚ) (L : List (Nat × Nat)) :
    ∀ (st : BuildSt) (i j : Nat),
      i < j → (i, j) ∈ L → (∀ p ∈ L, p.1 < p.2) → L.Nodup →
      (L.foldl (buildStep c) st).mat i j = cellOf (c i j) ∧
      (L.foldl (buildStep c) st).mat j i = cellOf (c i j) := by
  induction L with
  | nil => intro _ _ _ _ hmem; exact absurd hmem (List.not_mem_nil _)
  | cons q L ih =>
    intro st i j hij hmem hsorted hnodup
    rcases List.mem_cons.mp hmem with heq | htail
    · subst heq
      rw [List.foldl_cons]
      have hnotin : (i, j) ∉ L := (List.nodup_cons.mp hnodup).1
      have huntouch₁ : ∀ p ∈ L, ¬((i = p.1 ∧ j = p.2) ∨ (i = p.2 ∧ j = p.1)) := by
        intro p hp
        have hps : p.1 < p.2 := hsorted p (List.mem_cons_of_mem _ hp)
        rintro (⟨h1, h2⟩ | ⟨h1, h2⟩)
        · exact hnotin (by cases p; simp_all)
        · omega
      have huntouch₂ : ∀ p ∈ L, ¬((j = p.1 ∧ i = p.2) ∨ (j = p.2 ∧ i = p.1)) := by
        intro p hp
        have hps : p.1 < p.2 := hsorted p (List.mem_cons_of_mem _ hp)
        rintro (⟨h1, h2⟩ | ⟨h1, h2⟩)
        · omega
        · exact hnotin (by cases p; simp_all)
      constructor
      · rw [foldl_mat_untouched c L _ i j huntouch₁]
        cases hc : c i j with
        | ok v => simp [buildStep, hc, cellOf, updatePair_same₁]
        | error e => simp [buildStep, hc, cellOf, updatePair_same₁]
      · rw [foldl_mat_untouched c L _ j i huntouch₂]
        cases hc : c i j with
        | ok v => simp [buildStep, hc, cellOf, updatePair_same₂]
        | error e => simp [buildStep, hc, cellOf, updatePair_same₂]
    · rw [List.foldl_cons]
      exact ih _ i j hij htail (fun p hp => hsorted p (List.mem_cons_of_mem _ hp))
        (List.nodup_cons.mp hnodup).2

lemma foldl_mat_symm (c : Nat → Nat → Except String ℚ) (L : List (Nat × Nat)) :
    ∀ st : BuildSt, (∀ a b, st.mat a b = st.mat b a) →
      ∀ a b, (L.foldl (buildStep c) st).mat a b = (L.foldl (buildStep c) st).mat b a := by
  induction L with
  | nil => intro st h a b; exact h a b
  | cons p L ih =>
    intro st h a b
    rw [List.foldl_cons]
    refine ih _ ?_ a b
    intro x y
    cases hc : c p.1 p.2 with
    | ok v =>
      simp only [buildStep, hc, updatePair]
      by_cases hxy : (x = p.1 ∧ y = p.2) ∨ (x = p.2 ∧ y = p.1)
      · rw [if_pos hxy, if_pos (by tauto)]
      · rw [if_neg hxy, if_neg (by tauto)]
        exact h x y
    | error e =>
      simp only [buildStep, hc, updatePair]
      by_cases hxy : (x = p.1 ∧ y = p.2) ∨ (x = p.2 ∧ y = p.1)
      · rw [if_pos hxy, if_pos (by tauto)]
      · rw [if_neg hxy, if_neg (by tauto)]
        exact h x y

/-- C1: for every list of input files and every comparator behaviour
(including one in which every invocation fails), the matrix returned by
`all_vs_all_fastani` has every diagonal entry exactly `100.0` and is
symmetric: the cells `(i, j)` and `(j, i)` are equal — the same score on
success, both `NaN` on failure. -/
theorem all_vs_all_symmetric_diagonal (file_paths : List String)
    (compare : Nat → Nat → Except String ℚ) (i j : Nat)
    (hi : i < file_paths.length) (hj : j < file_paths.length) :
    (all_vs_all_fastani file_paths compare).1 i i = some 100 ∧
    (all_vs_all_fastani file_paths compare).1 i j =
      (all_vs_all_fastani file_paths compare).1 j i := by
  unfold all_vs_all_fastani
  simp only
  refine ⟨by simp [hi], ?_⟩
  by_cases hij : i = j
  · subst hij; rfl
  · have hsym := foldl_mat_symm compare (pairs file_paths.length)
      ⟨fun _ _ => some 0, []⟩ (fun _ _ => rfl) i j
    rw [if_neg (by tauto), if_neg (by tauto)]
    exact hsym

/-- C1 witness: with two input files and a comparator in which every
invocation fails, the diagonal is `100.0` and the off-diagonal cells agree. -/
theorem all_vs_all_symmetric_diagonal_witness :
    (all_vs_all_fastani ["x.fa", "y.fa"] allFailCompare).1 0 0 = some 100 ∧
    (all_vs_all_fastani ["x.fa", "y.fa"] allFailCompare).1 0 1 =
      (all_vs_all_fastani ["x.fa", "y.fa"] allFailCompare).1 1 0 :=
  all_vs_all_symmetric_diagonal ["x.fa", "y.fa"] allFailCompare 0 1
    (by decide) (by decide)

lemma all_vs_all_cell (fps : List String) (c : Nat → Nat → Except String ℚ)
    (i j : Nat) (hij : i < j) (hj : j < fps.length) :
    (all_vs_all_fastani fps c).1 i j = cellOf (c i j) ∧
    (all_vs_all_fastani fps c).1 j i = cellOf (c i j) := by
  unfold all_vs_all_fastani
  simp only
  rw [if_neg (by omega), if_neg (by omega)]
  exact foldl_mat_set c (pairs fps.length) _ i j hij
    (mem_pairs.mpr ⟨hij, hj⟩) (fun p hp => sorted_pairs hp) (nodup_pairs _)

lemma all_vs_all_errs (fps : List String) (c : Nat → Nat → Except String ℚ) :
    (all_vs_all_fastani fps c).2.2 =
      (pairs fps.length).filterMap (fun p =>
        match c p.1 p.2 with
        | .ok _ => none
        | .error e => some (p, e)) := by
  unfold all_vs_all_fastani
  simp only
  rw [foldl_errs]
  simp

lemma filterMap_ext {α β : Type} (L : List α) (f g : α → Option β)
    (h : ∀ a ∈ L, f a = g a) : L.filterMap f = L.filterMap g := by
  induction L with
  | nil => rfl
  | cons a L ih =>
    rw [List.filterMap_cons, List.filterMap_cons, h a (List.mem_cons_self a L),
      ih (fun b hb => h b (List.mem_cons_of_mem a hb))]

lemma filterMap_single_hit {α β : Type} [DecidableEq α] (L : List α) (x : α)
    (g : α → β) (hx : x ∈ L) (hnd : L.Nodup) :
    L.filterMap (fun p => if p = x then some (g p) else none) = [g x] := by
  induction L with
  | nil => exact absurd hx (List.not_mem_nil _)
  | cons a L ih =>
    rcases List.mem_cons.mp hx with rfl | htail
    · have hcons : List.filterMap (fun p => if p = x then some (g p) else none) (x :: L) =
          g x :: List.filterMap (fun p => if p = x then some (g p) else none) L := by
        simp [List.filterMap_cons]
      have hnone : L.filterMap (fun p => if p = x then some (g p) else none) = [] := by
        rw [List.filterMap_eq_nil_iff]
        intro p hp
        rw [if_neg]
        intro hpa
        exact (List.nodup_cons.mp hnd).1 (hpa ▸ hp)
      rw [hcons, hnone]
    · have hax : a ≠ x := by
        intro h
        exact (List.nodup_cons.mp hnd).1 (h ▸ htail)
      have hcons : List.filterMap (fun p => if p = x then some (g p) else none) (a :: L) =
          List.filterMap (fun p => if p = x then some (g p) else none) L := by
        simp [List.filterMap_cons, hax]
      rw [hcons]
      exact ih htail (List.nodup_cons.mp hnd).2

/-- C2: `all_vs_all_fastani` attempts the comparator exactly once for each of
the `N·(N−1)/2` unordered pairs `(i, j)` with `i < j` (the enumerated pair
list contains each such pair exactly once), and one pair's failure does not
prevent any other pair from being attempted: when exactly the pair `p0` fails
and all others succeed, the failure map is exactly `[(p0, msg)]` and every
other unordered-pair cell holds the score the comparator returned. -/
theorem all_vs_all_single_failure_isolation (file_paths : List String)
    (p0 : Nat × Nat) (msg : String) (score : Nat → Nat → ℚ)
    (h1 : p0.1 < p0.2) (h2 : p0.2 < file_paths.length) :
    (pairs file_paths.length).Nodup ∧
    (∀ p : Nat × Nat, p ∈ pairs file_paths.length ↔
      p.1 < p.2 ∧ p.2 < file_paths.length) ∧
    (pairs file_paths.length).length =
      file_paths.length * (file_paths.length - 1) / 2 ∧
    (all_vs_all_fastani file_paths
      (fun i j => if (i, j) = p0 then .error msg else .ok (score i j))).2.2 =
        [(p0, msg)] ∧
    (∀ i j : Nat, i < j → j < file_paths.length → (i, j) ≠ p0 →
      (all_vs_all_fastani file_paths
        (fun i j => if (i, j) = p0 then .error msg else .ok (score i j))).1 i j =
          some (score i j) ∧
      (all_vs_all_fastani file_paths
        (fun i j => if (i, j) = p0 then .error msg else .ok (score i j))).1 j i =
          some (score i j)) := by
  refine ⟨nodup_pairs _, fun p => mem_pairs', length_pairs _, ?_, ?_⟩
  · rw [all_vs_all_errs,
      filterMap_ext _ _ (fun p : Nat × Nat => if p = p0 then some (p, msg) else none) ?_,
      filterMap_single_hit _ p0 _ (mem_pairs'.mpr ⟨h1, h2⟩) (nodup_pairs _)]
    intro p _
    by_cases hp : p = p0
    · subst hp; simp
    · simp [hp]
  · intro i j hij hjn hne
    have hcells := all_vs_all_cell file_paths
      (fun i j => if (i, j) = p0 then .error msg else .ok (score i j)) i j hij hjn
    simp only [if_neg hne, cellOf] at hcells
    exact hcells

/-- C2 witness: three files, the pair `(0, 1)` fails, the rest succeed with
score 90: the failure map has the single entry and the other cells carry 90. -/
theorem all_vs_all_single_failure_isolation_witness :
    (all_vs_all_fastani ["a.fa", "b.fa", "c.fa"]
      (fun i j => if (i, j) = ((0, 1) : Nat × Nat) then .error "boom"
        else .ok ((fun _ _ => (90 : ℚ)) i j))).2.2 = [(((0, 1) : Nat × Nat), "boom")] ∧
    (all_vs_all_fastani ["a.fa", "b.fa", "c.fa"]
      (fun i j => if (i, j) = ((0, 1) : Nat × Nat) then .error "boom"
        else .ok ((fun _ _ => (90 : ℚ)) i j))).1 0 2 = some 90 ∧
    (all_vs_all_fastani ["a.fa", "b.fa", "c.fa"]
      (fun i j => if (i, j) = ((0, 1) : Nat × Nat) then .error "boom"
        else .ok ((fun _ _ => (90 : ℚ)) i j))).1 2 0 = some 90 := by
  have h := all_vs_all_single_failure_isolation ["a.fa", "b.fa", "c.fa"]
    (0, 1) "boom" (fun _ _ => (90 : ℚ)) (by decide) (by decide)
  have hcell := h.2.2.2.2 0 2 (by decide) (by decide) (by decide)
  exact ⟨h.2.2.2.1, hcell.1, hcell.2⟩

/-! ## The real comparator and the error map -/

lemma string_append_ne_empty (a b : String) (h : a ≠ "") : a ++ b ≠ "" := by
  intro hab
  apply h
  have hd := congrArg String.data hab
  rw [String.data_append] at hd
  exact String.ext (List.append_eq_nil.mp hd).1

lemma run_fastani_error_ne (query ref outFile : String) (threads timeoutSecs : Nat)
    (w : FastANIWorld) (e : String)
    (h : run_fastani query ref outFile threads timeoutSecs w = .error e) : e ≠ "" := by
  cases w with
  | noBinary =>
      simp only [run_fastani, Except.error.injEq] at h
      subst h
      apply string_append_ne_empty
      decide
  | timeout bp =>
      simp only [run_fastani, Except.error.injEq] at h
      subst h
      repeat apply string_append_ne_empty
      decide
  | procMissing bp =>
      simp only [run_fastani, Except.error.injEq] at h
      subst h
      decide
  | ran bp rc stderr outExists firstLine =>
      simp only [run_fastani] at h
      split at h
      · simp only [Except.error.injEq] at h
        subst h
        repeat apply string_append_ne_empty
        decide
      · split at h
        · simp only [Except.error.injEq] at h
          subst h
          repeat apply string_append_ne_empty
          decide
        · split at h
          · exact absurd h (by simp)
          · simp only [Except.error.injEq] at h
            subst h
            repeat apply string_append_ne_empty
            decide
          · simp only [Except.error.injEq] at h
            subst h
            repeat apply string_append_ne_empty
            decide

lemma all_vs_all_errs_mem (fps : List String) (c : Nat → Nat → Except String ℚ)
    (p : Nat × Nat) (e : String) :
    (p, e) ∈ (all_vs_all_fastani fps c).2.2 ↔
      p ∈ pairs fps.length ∧ c p.1 p.2 = .error e := by
  rw [all_vs_all_errs, List.mem_filterMap]
  constructor
  · rintro ⟨a, ha, hfa⟩
    cases hc : c a.1 a.2 with
    | ok v => rw [hc] at hfa; simp at hfa
    | error e' =>
      rw [hc] at hfa
      simp only [Option.some.injEq, Prod.mk.injEq] at hfa
      obtain ⟨rfl, rfl⟩ := hfa
      exact ⟨ha, hc⟩
  · rintro ⟨hp, hc⟩
    exact ⟨p, hp, by rw [hc]⟩

/-- C9: invariants of the matrix/error-map pair returned by
`all_vs_all_fastani` when run with its real per-pair comparator
`run_fastani`: every key `(i, j)` of the error map satisfies
`0 ≤ i < j < N`; an off-diagonal cell is `NaN` exactly when its unordered
pair carries an error-map entry; and every recorded reason string is
non-empty. -/
theorem all_vs_all_errors_invariant (fps : List String) (baseTmp : String)
    (threads : Nat) (world : Nat → Nat → FastANIWorld) :
    (∀ p : Nat × Nat, ∀ e : String,
      (p, e) ∈ (all_vs_all_fastani_exec fps baseTmp threads world).2.2 →
        p.1 < p.2 ∧ p.2 < fps.length) ∧
    (∀ i j : Nat, i < fps.length → j < fps.length → i ≠ j →
      ((all_vs_all_fastani_exec fps baseTmp threads world).1 i j = none ↔
        ∃ e, ((min i j, max i j), e) ∈
          (all_vs_all_fastani_exec fps baseTmp threads world).2.2)) ∧
    (∀ p : Nat × Nat, ∀ e : String,
      (p, e) ∈ (all_vs_all_fastani_exec fps baseTmp threads world).2.2 → e ≠ "") := by
  unfold all_vs_all_fastani_exec
  refine ⟨?_, ?_, ?_⟩
  · intro p e hmem
    exact mem_pairs'.mp ((all_vs_all_errs_mem _ _ _ _).mp hmem).1
  · intro i j hi hj hij
    rcases lt_or_gt_of_ne hij with hlt | hgt
    · rw [Nat.min_eq_left (le_of_lt hlt), Nat.max_eq_right (le_of_lt hlt)]
      rw [(all_vs_all_cell fps _ i j hlt hj).1]
      cases hc : run_fastani (fps.getD i "") (fps.getD j "")
          (fastani_out_file baseTmp i j) threads 600 (world i j) with
      | ok v =>
        simp only [cellOf]
        constructor
        · intro hfalse; exact absurd hfalse (by simp)
        · rintro ⟨e, hmem⟩
          have := ((all_vs_all_errs_mem _ _ _ _).mp hmem).2
          simp only at this
          rw [hc] at this
          exact absurd this (by simp)
      | error err =>
        simp only [cellOf]
        refine ⟨fun _ => ⟨_, (all_vs_all_errs_mem _ _ _ _).mpr
          ⟨mem_pairs.mpr ⟨hlt, hj⟩, by simpa using hc⟩⟩, fun _ => trivial⟩
    · rw [Nat.min_eq_right (le_of_lt hgt), Nat.max_eq_left (le_of_lt hgt)]
      rw [(all_vs_all_cell fps _ j i hgt hi).2]
      cases hc : run_fastani (fps.getD j "") (fps.getD i "")
          (fastani_out_file baseTmp j i) threads 600 (world j i) with
      | ok v =>
        simp only [cellOf]
        constructor
        · intro hfalse; exact absurd hfalse (by simp)
        · rintro ⟨e, hmem⟩
          have := ((all_vs_all_errs_mem _ _ _ _).mp hmem).2
          simp only at this
          rw [hc] at this
          exact absurd this (by simp)
      | error err =>
        simp only [cellOf]
        refine ⟨fun _ => ⟨_, (all_vs_all_errs_mem _ _ _ _).mpr
          ⟨mem_pairs.mpr ⟨hgt, hi⟩, by simpa using hc⟩⟩, fun _ => trivial⟩
  · intro p e hmem
    have hc := ((all_vs_all_errs_mem _ _ _ _).mp hmem).2
    simp only at hc
    exact run_fastani_error_ne _ _ _ _ _ _ _ hc

/-- C9 witness: two files with the fastANI binary missing everywhere: the
`(0, 1)` cell is `NaN` and the error map carries its (non-empty) reason. -/
theorem all_vs_all_errors_invariant_witness :
    ((all_vs_all_fastani_exec ["a.fa", "b.fa"] "./temp/" 1
        (fun _ _ => FastANIWorld.noBinary)).1 0 1 = none ↔
      ∃ e, ((min 0 1, max 0 1), e) ∈
        (all_vs_all_fastani_exec ["a.fa", "b.fa"] "./temp/" 1
          (fun _ _ => FastANIWorld.noBinary)).2.2) :=
  (all_vs_all_errors_invariant ["a.fa", "b.fa"] "./temp/" 1
    (fun _ _ => FastANIWorld.noBinary)).2.1 0 1 (by decide) (by decide) (by decide)

/-! ## Distance transform, tree building and labels -/

/-- C4: `compute_distance_matrix` is pure and pointwise: every defined cell
becomes `1 − S/100`, a cell is unavailable (`NaN`) exactly where the input
cell was, and a cell holding `100` maps to `0` (so an all-100 similarity
matrix yields the all-zero distance matrix). -/
theorem compute_distance_matrix_pointwise (M : Nat → Nat → Option ℚ) (i j : Nat) :
    compute_distance_matrix M i j = (M i j).map (fun s => 1 - s / 100) ∧
    (compute_distance_matrix M i j = none ↔ M i j = none) ∧
    (M i j = some 100 → compute_distance_matrix M i j = some 0) := by
  refine ⟨rfl, ?_, ?_⟩
  · simp [compute_distance_matrix]
  · intro h
    simp only [compute_distance_matrix, h, Option.map_some']
    norm_num

/-- C4 witness: a matrix of all-100 similarities yields zero distance. -/
theorem compute_distance_matrix_pointwise_witness :
    compute_distance_matrix (fun _ _ => some 100) 0 0 = some 0 :=
  (compute_distance_matrix_pointwise (fun _ _ => some 100) 0 0).2.2 rfl

/-- C10: when scikit-bio is not importable, `neighbor_joining_tree` does not
raise; it returns the sentinel pair `("scikit-bio not installed", "")` with
an empty Newick string. -/
theorem neighbor_joining_tree_no_skbio_sentinel (dm : Nat → Nat → Option ℚ)
    (names : List String) :
    neighbor_joining_tree none dm names =
      NJOutcome.result "scikit-bio not installed" "" := rfl

/-- C5 counterexample: the pipeline is handed an ANI matrix whose pair
`(0, 1)` is unavailable, coerces that cell to similarity 0 — i.e. a
fabricated distance of 1 — and still emits a tree: no "incomplete distance
matrix" condition exists anywhere in the code. -/
theorem streamlit_tree_built_from_coerced_nan :
    aniDemo 0 1 = none ∧
    streamlit_distance aniDemo 0 1 = some 1 ∧
    streamlit_tree_section (some okLib) aniDemo ["a.fa", "b.fa", "c.fa"] =
      TreeSection.built (NJOutcome.result "ascii-tree" "(a,b,c);") := by
  refine ⟨rfl, ?_, rfl⟩
  simp only [streamlit_distance, compute_distance_matrix, np_nan_to_num, aniDemo]
  norm_num

/-- C5 amended: neither `neighbor_joining_tree` nor its caller checks the
distance matrix for unavailable cells; instead the app coerces every `NaN`
similarity to `0.0` (`np.nan_to_num`), so the distance matrix handed to the
tree build is fully defined — with distance `1` substituted at every failed
pair — and, whenever at least 3 genomes are present, a tree build is always
attempted on those substituted distances. -/
theorem streamlit_coerces_unavailable_and_builds (skbio : Option NJLib)
    (ani : Nat → Nat → Option ℚ) (names : List String)
    (h : 3 ≤ names.length) :
    streamlit_tree_section skbio ani names =
      TreeSection.built (neighbor_joining_tree skbio (streamlit_distance ani) names) ∧
    (∀ i j, streamlit_distance ani i j = some (1 - ((ani i j).getD 0) / 100)) ∧
    (∀ i j, ani i j = none → streamlit_distance ani i j = some 1) := by
  refine ⟨?_, fun i j => rfl, fun i j hij => ?_⟩
  · unfold streamlit_tree_section
    rw [if_neg (by omega)]
  · simp only [streamlit_distance, compute_distance_matrix, np_nan_to_num, hij]
    norm_num

/-- C5 amended witness: the three-genome demo run with one failed pair
builds a tree on the coerced distances. -/
theorem streamlit_coerces_unavailable_and_builds_witness :
    streamlit_tree_section (some okLib) aniDemo ["a.fa", "b.fa", "c.fa"] =
      TreeSection.built (neighbor_joining_tree (some okLib)
        (streamlit_distance aniDemo) ["a.fa", "b.fa", "c.fa"]) :=
  (streamlit_coerces_unavailable_and_builds (some okLib) aniDemo
    ["a.fa", "b.fa", "c.fa"] (by decide)).1

/-- C6 counterexample: `neighbor_joining_tree` itself performs no
label-count validation — called directly with two labels against a library
behaving as scikit-bio documents (raising for a matrix smaller than 3x3),
the exception propagates uncaught instead of any "not enough inputs"
condition being reported. -/
theorem neighbor_joining_tree_two_labels_propagates_library_error :
    neighbor_joining_tree (some skbioLikeLib) dmTwo ["a.fa", "b.fa"] =
      NJOutcome.raised
        "Distance matrix must be at least 3x3 to generate a neighbor joining tree." := rfl

/-- C6 amended: the fewer-than-3 rejection lives in the Streamlit caller,
not in `neighbor_joining_tree`: with fewer than 3 genome names the app shows
the "need at least 3 genomes" notice and never invokes the tree build. -/
theorem streamlit_guard_fewer_than_three (skbio : Option NJLib)
    (ani : Nat → Nat → Option ℚ) (names : List String)
    (h : names.length < 3) :
    streamlit_tree_section skbio ani names = TreeSection.tooFew := by
  unfold streamlit_tree_section
  rw [if_pos h]

/-- C6 amended witness: with two genomes the app reports the notice and no
tree build happens. -/
theorem streamlit_guard_fewer_than_three_witness :
    streamlit_tree_section (some skbioLikeLib) aniDemo ["a.fa", "b.fa"] =
      TreeSection.tooFew :=
  streamlit_guard_fewer_than_three (some skbioLikeLib) aniDemo ["a.fa", "b.fa"]
    (by decide)

/-- C8 counterexample: the genome labels used for the similarity matrix and
the tree leaves are `os.path.basename` of the input paths with the extension
retained, not stripped: for `data/g1.fasta` the label is `g1.fasta`, while
the extension-stripped identifier would be `g1`. -/
theorem genome_names_keep_extension :
    (all_vs_all_fastani ["data/g1.fasta", "data/g2.fasta"] const90Compare).2.1 =
      ["g1.fasta", "g2.fasta"] ∧
    stripExt (basename "data/g1.fasta") = "g1" ∧
    ("g1.fasta" : String) ≠ "g1" := by
  refine ⟨by decide, by decide, by decide⟩

/-- C8 amended: matrix/tree labels are the basenames of the source file
paths with the extension retained; only the statistics table's "File" column
strips the final extension. -/
theorem genome_names_are_basenames (file_paths : List String)
    (compare : Nat → Nat → Except String ℚ) (i : Nat)
    (h : i < file_paths.length) :
    (all_vs_all_fastani file_paths compare).2.1.length = file_paths.length ∧
    (all_vs_all_fastani file_paths compare).2.1.getD i "" =
      basename (file_paths.getD i "") ∧
    process_directory_file_column ["g1.fasta"] = [stripExt "g1.fasta"] := by
  refine ⟨by simp [all_vs_all_fastani], ?_, by decide⟩
  have h2 : i < (file_paths.map basename).length := by simpa using h
  show (file_paths.map basename).getD i "" = basename (file_paths.getD i "")
  rw [List.getD_eq_getElem _ _ h2, List.getElem_map, List.getD_eq_getElem _ _ h]

/-- C8 amended witness: for the single path `data/g1.fasta` the label is its
basename `g1.fasta`. -/
theorem genome_names_are_basenames_witness :
    (all_vs_all_fastani ["data/g1.fasta"] const90Compare).2.1.length = 1 ∧
    (all_vs_all_fastani ["data/g1.fasta"] const90Compare).2.1.getD 0 "" =
      basename (["data/g1.fasta"].getD 0 "") ∧
    process_directory_file_column ["g1.fasta"] = [stripExt "g1.fasta"] :=
  genome_names_are_basenames ["data/g1.fasta"] const90Compare 0 (by decide)

/-! ## Sorting and accumulation for N50/L90 -/

lemma insertDesc_sum (x : Nat) (l : List Nat) : (insertDesc x l).sum = x + l.sum := by
  induction l with
  | nil => simp [insertDesc]
  | cons y ys ih =>
    simp only [insertDesc]
    by_cases h : y ≤ x
    · rw [if_pos h]; simp
    · rw [if_neg h]; simp [ih]; omega

lemma sortDesc_sum (l : List Nat) : (sortDesc l).sum = l.sum := by
  induction l with
  | nil => rfl
  | cons x xs ih => simp [sortDesc, insertDesc_sum, ih]

lemma insertDesc_perm (x : Nat) (l : List Nat) : (insertDesc x l).Perm (x :: l) := by
  induction l with
  | nil => simp [insertDesc]
  | cons y ys ih =>
    simp only [insertDesc]
    by_cases h : y ≤ x
    · rw [if_pos h]
    · rw [if_neg h]
      exact (ih.cons y).trans (List.Perm.swap x y ys)

lemma sortDesc_perm (l : List Nat) : (sortDesc l).Perm l := by
  induction l with
  | nil => simp [sortDesc]
  | cons x xs ih =>
    exact (insertDesc_perm x (sortDesc xs)).trans (ih.cons x)

lemma sortDesc_length (l : List Nat) : (sortDesc l).length = l.length :=
  (sortDesc_perm l).length_eq

lemma insertDesc_sorted (x : Nat) (l : List Nat) (h : l.Pairwise (· ≥ ·)) :
    (insertDesc x l).Pairwise (· ≥ ·) := by
  induction l with
  | nil => simp [insertDesc]
  | cons y ys ih =>
    rcases List.pairwise_cons.mp h with ⟨hy, hys⟩
    simp only [insertDesc]
    by_cases hle : y ≤ x
    · rw [if_pos hle]
      refine List.pairwise_cons.mpr ⟨?_, h⟩
      intro z hz
      rcases List.mem_cons.mp hz with rfl | hzys
      · exact hle
      · exact le_trans (hy z hzys) hle
    · rw [if_neg hle]
      refine List.pairwise_cons.mpr ⟨?_, ih hys⟩
      intro z hz
      rcases List.mem_cons.mp ((insertDesc_perm x ys).mem_iff.mp hz) with rfl | hzys
      · omega
      · exact hy z hzys

lemma sortDesc_sorted (l : List Nat) : (sortDesc l).Pairwise (· ≥ ·) := by
  induction l with
  | nil => simp [sortDesc]
  | cons x xs ih => exact insertDesc_sorted x (sortDesc xs) ih

lemma n50Loop_spec (l : List Nat) :
    ∀ (half cum : ℚ), l ≠ [] → half ≤ cum + (l.sum : ℚ) →
      ∃ k, ∃ hk : k < l.length, n50Loop l half cum = l.get ⟨k, hk⟩ ∧
        half ≤ cum + ((l.take (k + 1)).sum : ℚ) ∧
        ∀ m, m < k → cum + ((l.take (m + 1)).sum : ℚ) < half := by
  induction l with
  | nil => intro _ _ hne _; exact absurd rfl hne
  | cons a T ih =>
    intro half cum _ hreach
    by_cases hhit : half ≤ cum + (a : ℚ)
    · refine ⟨0, Nat.succ_pos _, ?_, ?_, ?_⟩
      · simp [n50Loop, hhit]
      · simpa using hhit
      · intro m hm; omega
    · have hTne : T ≠ [] := by
        intro hT
        subst hT
        simp only [List.sum_cons, List.sum_nil, Nat.add_zero] at hreach
        exact hhit hreach
      have hreach' : half ≤ (cum + (a : ℚ)) + (T.sum : ℚ) := by
        have : ((a :: T).sum : ℚ) = (a : ℚ) + (T.sum : ℚ) := by push_cast [List.sum_cons]; ring
        rw [this] at hreach
        linarith
      obtain ⟨k, hk, heq, hge, hlt⟩ := ih half (cum + (a : ℚ)) hTne hreach'
      refine ⟨k + 1, Nat.succ_lt_succ hk, ?_, ?_, ?_⟩
      · simpa [n50Loop, hhit] using heq
      · have : (((a :: T).take (k + 2)).sum : ℚ) = (a : ℚ) + ((T.take (k + 1)).sum : ℚ) := by
          push_cast [List.take_succ_cons, List.sum_cons]
          ring
        rw [this]
        linarith
      · intro m hm
        cases m with
        | zero =>
          simpa using not_le.mp hhit
        | succ m' =>
          have hm' : m' < k := by omega
          have : (((a :: T).take (m' + 2)).sum : ℚ) = (a : ℚ) + ((T.take (m' + 1)).sum : ℚ) := by
            push_cast [List.take_succ_cons, List.sum_cons]
            ring
          rw [this]
          have := hlt m' hm'
          linarith

lemma l90Loop_spec (l : List Nat) :
    ∀ (target cum : ℚ) (acc : Nat), l ≠ [] → target ≤ cum + (l.sum : ℚ) →
      ∃ k, ∃ hk : k < l.length, l90Loop l target cum acc = acc + (k + 1) ∧
        target ≤ cum + ((l.take (k + 1)).sum : ℚ) ∧
        ∀ m, m < k → cum + ((l.take (m + 1)).sum : ℚ) < target := by
  induction l with
  | nil => intro _ _ _ hne _; exact absurd rfl hne
  | cons a T ih =>
    intro target cum acc _ hreach
    by_cases hhit : target ≤ cum + (a : ℚ)
    · refine ⟨0, Nat.succ_pos _, ?_, ?_, ?_⟩
      · simp [l90Loop, hhit]
      · simpa using hhit
      · intro m hm; omega
    · have hTne : T ≠ [] := by
        intro hT
        subst hT
        simp only [List.sum_cons, List.sum_nil, Nat.add_zero] at hreach
        exact hhit hreach
      have hreach' : target ≤ (cum + (a : ℚ)) + (T.sum : ℚ) := by
        have : ((a :: T).sum : ℚ) = (a : ℚ) + (T.sum : ℚ) := by push_cast [List.sum_cons]; ring
        rw [this] at hreach
        linarith
      obtain ⟨k, hk, heq, hge, hlt⟩ := ih target (cum + (a : ℚ)) (acc + 1) hTne hreach'
      refine ⟨k + 1, Nat.succ_lt_succ hk, ?_, ?_, ?_⟩
      · rw [show l90Loop (a :: T) target cum acc = l90Loop T target (cum + (a : ℚ)) (acc + 1) by
          simp [l90Loop, hhit]]
        omega
      · have : (((a :: T).take (k + 2)).sum : ℚ) = (a : ℚ) + ((T.take (k + 1)).sum : ℚ) := by
          push_cast [List.take_succ_cons, List.sum_cons]
          ring
        rw [this]
        linarith
      · intro m hm
        cases m with
        | zero =>
          simpa using not_le.mp hhit
        | succ m' =>
          have hm' : m' < k := by omega
          have : (((a :: T).take (m' + 2)).sum : ℚ) = (a : ℚ) + ((T.take (m' + 1)).sum : ℚ) := by
            push_cast [List.take_succ_cons, List.sum_cons]
            ring
          rw [this]
          have := hlt m' hm'
          linarith

lemma compute_stats_eq_of_ne (records : List (List Char))
    (h : contigLengths records ≠ []) :
    compute_stats records =
      { total_length := (contigLengths records).sum
        num_contigs := records.length
        n50 := n50Loop (sortDesc (contigLengths records))
          (((contigLengths records).sum : ℚ) / 2) 0
        l90 := l90Loop (sortDesc (contigLengths records))
          (((contigLengths records).sum : ℚ) * (9 / 10)) 0 0
        gc_percent := pyRound2 (if 0 < (contigLengths records).sum then
          ((records.map countGC).sum : ℚ) / ((contigLengths records).sum : ℚ) * 100
          else 0) } := by
  simp only [compute_stats]
  rw [if_neg (by simpa [List.isEmpty_iff] using h)]

/-- C3: `compute_stats` sorts the contig lengths descending and accumulates
them: N50 is the length at the first position where the cumulative sum
reaches at least 50% of the total length, and L90 is the count of contigs
consumed to first reach at least 90% of the total (a count, not a length);
in particular for contig lengths `[100, 100, 100, 100, 100]` the result has
N50 = 100 and L90 = 5. -/
theorem compute_stats_n50_l90_characterization (records : List (List Char))
    (h : records ≠ []) :
    (sortDesc (contigLengths records)).Pairwise (· ≥ ·) ∧
    (sortDesc (contigLengths records)).Perm (contigLengths records) ∧
    (∃ k, ∃ hk : k < (sortDesc (contigLengths records)).length,
      (compute_stats records).n50 = (sortDesc (contigLengths records)).get ⟨k, hk⟩ ∧
      ((contigLengths records).sum : ℚ) / 2 ≤
        (((sortDesc (contigLengths records)).take (k + 1)).sum : ℚ) ∧
      ∀ m, m < k →
        (((sortDesc (contigLengths records)).take (m + 1)).sum : ℚ) <
          ((contigLengths records).sum : ℚ) / 2) ∧
    (∃ k, ∃ hk : k < (sortDesc (contigLengths records)).length,
      (compute_stats records).l90 = k + 1 ∧
      ((contigLengths records).sum : ℚ) * (9 / 10) ≤
        (((sortDesc (contigLengths records)).take (k + 1)).sum : ℚ) ∧
      ∀ m, m < k →
        (((sortDesc (contigLengths records)).take (m + 1)).sum : ℚ) <
          ((contigLengths records).sum : ℚ) * (9 / 10)) ∧
    (compute_stats demoRecords).n50 = 100 ∧
    (compute_stats demoRecords).l90 = 5 := by
  have hLne : contigLengths records ≠ [] := by
    intro heq
    exact h (List.map_eq_nil_iff.mp heq)
  have hSne : sortDesc (contigLengths records) ≠ [] := by
    intro hs
    apply hLne
    have hl := sortDesc_length (contigLengths records)
    rw [hs] at hl
    exact List.length_eq_zero.mp hl.symm
  have ht0 : (0 : ℚ) ≤ ((contigLengths records).sum : ℚ) := Nat.cast_nonneg _
  have hsum : ((sortDesc (contigLengths records)).sum : ℚ) =
      ((contigLengths records).sum : ℚ) := by
    rw [sortDesc_sum]
  have hdemoL : contigLengths demoRecords = [100, 100, 100, 100, 100] := by
    simp only [demoRecords, contigLengths, List.map_replicate, seqUpper,
      List.length_map, List.length_replicate]
    decide
  have hdemoNe : contigLengths demoRecords ≠ [] := by rw [hdemoL]; decide
  have hdemoSort : sortDesc [100, 100, 100, 100, 100] = [100, 100, 100, 100, 100] := by
    decide
  have hdemoSum : (([100, 100, 100, 100, 100] : List Nat).sum : ℚ) = 500 := by
    norm_num [List.sum_cons, List.sum_nil]
  refine ⟨sortDesc_sorted _, sortDesc_perm _, ?_, ?_, ?_, ?_⟩
  · have hreach : ((contigLengths records).sum : ℚ) / 2 ≤
        0 + ((sortDesc (contigLengths records)).sum : ℚ) := by
      rw [hsum]
      linarith
    obtain ⟨k, hk, heq, hge, hlt⟩ :=
      n50Loop_spec (sortDesc (contigLengths records))
        (((contigLengths records).sum : ℚ) / 2) 0 hSne hreach
    refine ⟨k, hk, ?_, ?_, ?_⟩
    · rw [compute_stats_eq_of_ne records hLne]
      exact heq
    · simpa using hge
    · intro m hm
      have := hlt m hm
      simpa using this
  · have hreach : ((contigLengths records).sum : ℚ) * (9 / 10) ≤
        0 + ((sortDesc (contigLengths records)).sum : ℚ) := by
      rw [hsum]
      nlinarith
    obtain ⟨k, hk, heq, hge, hlt⟩ :=
      l90Loop_spec (sortDesc (contigLengths records))
        (((contigLengths records).sum : ℚ) * (9 / 10)) 0 0 hSne hreach
    refine ⟨k, hk, ?_, ?_, ?_⟩
    · rw [compute_stats_eq_of_ne records hLne]
      simpa using heq
    · simpa using hge
    · intro m hm
      have := hlt m hm
      simpa using this
  · rw [compute_stats_eq_of_ne demoRecords hdemoNe]
    show n50Loop (sortDesc (contigLengths demoRecords))
      (((contigLengths demoRecords).sum : ℚ) / 2) 0 = 100
    rw [hdemoL, hdemoSort]
    norm_num [List.sum_cons, List.sum_nil, n50Loop]
  · rw [compute_stats_eq_of_ne demoRecords hdemoNe]
    show l90Loop (sortDesc (contigLengths demoRecords))
      (((contigLengths demoRecords).sum : ℚ) * (9 / 10)) 0 0 = 5
    rw [hdemoL, hdemoSort]
    norm_num [List.sum_cons, List.sum_nil, l90Loop]

/-- C3 witness: the spec's five-contig demo assembly, via the theorem. -/
theorem compute_stats_n50_l90_characterization_witness :
    (compute_stats demoRecords).n50 = 100 ∧ (compute_stats demoRecords).l90 = 5 :=
  (compute_stats_n50_l90_characterization demoRecords (by decide)).2.2.2.2

/-- C7: with zero sequence records `compute_stats` returns every statistic
(total length, contig count, N50, L90, GC%) equal to zero and raises no
error, and GC% is 0 whenever the total base count is 0 (no division by
zero). -/
theorem compute_stats_empty_and_zero_gc :
    compute_stats [] =
      { total_length := 0, num_contigs := 0, n50 := 0, l90 := 0, gc_percent := 0 } ∧
    (∀ records : List (List Char), (contigLengths records).sum = 0 →
      (compute_stats records).gc_percent = 0) := by
  refine ⟨rfl, ?_⟩
  intro records htot
  by_cases hemp : contigLengths records = []
  · have hrec : records = [] := List.map_eq_nil_iff.mp hemp
    subst hrec
    rfl
  · rw [compute_stats_eq_of_ne records hemp]
    show pyRound2 (if 0 < (contigLengths records).sum then
      ((records.map countGC).sum : ℚ) / ((contigLengths records).sum : ℚ) * 100
      else 0) = 0
    rw [if_neg (by omega)]
    norm_num [pyRound2, roundHalfEven]

/-- C7 witness: one empty record (total base count 0) yields GC% = 0. -/
theorem compute_stats_empty_and_zero_gc_witness :
    (compute_stats [[]]).gc_percent = 0 :=
  compute_stats_empty_and_zero_gc.2 [[]] (by decide)
